import Mathlib

/-!
Shallow embedding of `src/expense_tracker.py` (a single-file CLI expense
tracker) and proofs of the specification claims about it.

Modelling conventions:
* Python `float` amounts are modelled as `ℚ` (the program only adds and
  compares amounts; amounts come from decimal input strings).
* The snapshot file `expenses.json` is modelled by `FileState`: absent,
  present-but-unparseable, or a parsed JSON array of objects (`JDict`).
  `json.dump`/`json.load` of a list of string/number dictionaries is a
  faithful round trip, so `save_expenses` is modelled as writing the
  parsed form directly.
* JSON object values for `date` / `description` / `category` are modelled
  as strings when present (the Python code performs no type check on
  them); the `amount` value may be a number, a string, or another value
  (`JAmount`), because `from_dict` applies `float(...)` to it.
* Uncaught Python exceptions are modelled by `Except String`, with the
  exception class in the message.
* Interactive re-prompt loops (`while True: ... input(...)`) are modelled
  by a list of successive input attempts; a loop that never receives an
  acceptable input never terminates, which the state-level operations
  model as `Option.none` (the process is stuck at the prompt and no
  further mutation or save is observable).
-/

/-- One expense record, from the `Expense` dataclass (lines 32-37). -/
structure Expense where
  date : String
  description : String
  category : String
  amount : ℚ
deriving DecidableEq, Repr

/-- The JSON value found under the `amount` key of a snapshot object:
a number, a string (to which Python applies `float`), or anything else
(on which `float` raises `TypeError`). -/
inductive JAmount where
  | num (q : ℚ)
  | str (s : String)
  | other
deriving DecidableEq, Repr

/-- One parsed JSON object of the snapshot array. A field is `none` when
the key is absent from the object. -/
structure JDict where
  date : Option String
  description : Option String
  category : Option String
  amount : Option JAmount
deriving DecidableEq, Repr

/-- Digit-string value: `foldl` over decimal digits. -/
def digitsVal (cs : List Char) : ℕ :=
  cs.foldl (fun a c => a * 10 + (c.toNat - 48)) 0

/-- Python `str.split(sep)` for a one-character separator, written as a
structural recursion (so that it evaluates by kernel reduction). -/
def splitOnChar (sep : Char) : List Char → List (List Char)
  | [] => [[]]
  | a :: rest =>
    match splitOnChar sep rest with
    | [] => [[]]
    | g :: gs => if a = sep then [] :: g :: gs else (a :: g) :: gs

/-- Magnitude part of Python `float(s)`: `"123"`, `"123.45"`, `".5"`,
`"7."` (exponents, `inf`/`nan` and `_` separators are not modelled; the
program's inputs are plain decimals). -/
def pyFloatMag (cs : List Char) : Option ℚ :=
  match splitOnChar '.' cs with
  | [ip] =>
      if ip ≠ [] ∧ ip.all Char.isDigit then some ((digitsVal ip : ℚ)) else none
  | [ip, fp] =>
      if (ip ≠ [] ∨ fp ≠ []) ∧ ip.all Char.isDigit ∧ fp.all Char.isDigit then
        some ((digitsVal ip : ℚ) + (digitsVal fp : ℚ) / (10 : ℚ) ^ fp.length)
      else none
  | _ => none

/-- The finite part of Python `float(s)` on an already-stripped string:
`none` models a `ValueError`. This covers exactly the inputs whose float
value is a finite decimal; `pyFloatF` below extends it with the special
literals `nan` / `inf` / `infinity`, which `float` also accepts.
(Exponent and underscore literals are not modelled; they denote finite
values that the `amount <= 0` gates treat exactly like other finite
decimals, so no claim depends on them.) -/
def pyFloat (s : String) : Option ℚ :=
  match s.data with
  | '-' :: rest => (pyFloatMag rest).map (fun q => -q)
  | '+' :: rest => pyFloatMag rest
  | cs => pyFloatMag cs

/-- An IEEE double as `float()` can produce one, as far as the program
observes it: a finite value (modelled exactly as `ℚ`), a NaN, or an
infinity. -/
inductive PyFloatVal where
  | fin (q : ℚ)
  | nan
  | inf
  | ninf
deriving DecidableEq, Repr

/-- Python `v <= 0` on a float: every comparison with NaN is `False`. -/
def pyLe0 : PyFloatVal → Bool
  | PyFloatVal.fin q => decide (q ≤ 0)
  | PyFloatVal.nan => false
  | PyFloatVal.inf => false
  | PyFloatVal.ninf => true

/-- Python `v > 0` on a float: every comparison with NaN is `False`. -/
def pyGt0 : PyFloatVal → Bool
  | PyFloatVal.fin q => decide (0 < q)
  | PyFloatVal.nan => false
  | PyFloatVal.inf => true
  | PyFloatVal.ninf => false

/-- The unsigned special float literals `float()` accepts,
case-insensitively: `nan`, `inf`, `infinity`. -/
def parseSpecialMag (cs : List Char) : Option PyFloatVal :=
  if cs.map Char.toLower = ['n', 'a', 'n'] then some PyFloatVal.nan
  else if cs.map Char.toLower = ['i', 'n', 'f'] ∨
      cs.map Char.toLower = ['i', 'n', 'f', 'i', 'n', 'i', 't', 'y'] then
    some PyFloatVal.inf
  else none

/-- A signed special float literal (`float("-nan")` is still NaN). -/
def parseSpecial (s : String) : Option PyFloatVal :=
  match s.data with
  | '-' :: rest =>
    match parseSpecialMag rest with
    | some PyFloatVal.inf => some PyFloatVal.ninf
    | some PyFloatVal.nan => some PyFloatVal.nan
    | _ => none
  | '+' :: rest => parseSpecialMag rest
  | cs => parseSpecialMag cs

/-- Python `float(s)` including the non-finite values: a finite decimal
parses to `fin`, the special literals parse to NaN or an infinity (the
decimal and special syntaxes are disjoint, so the order of the two
branches is immaterial). -/
def pyFloatF (s : String) : Option PyFloatVal :=
  match pyFloat s with
  | some q => some (PyFloatVal.fin q)
  | none => parseSpecial s

/-- Gregorian leap-year test, as `datetime` uses. -/
def isLeap (y : ℕ) : Bool := (y % 4 == 0 && y % 100 != 0) || y % 400 == 0

/-- Number of days in a month, as `datetime` validates. -/
def daysInMonth (y m : ℕ) : ℕ :=
  if m == 2 then (if isLeap y then 29 else 28)
  else if m == 4 || m == 6 || m == 9 || m == 11 then 30
  else 31

/-- Model of `datetime.strptime(s, "%Y-%m-%d")` succeeding: four-digit
year (at least 0001), one-or-two-digit month 1..12, one-or-two-digit day
valid for that month. -/
def isValidDate (s : String) : Bool :=
  match splitOnChar '-' s.data with
  | [ys, ms, ds] =>
      ys.length == 4 && ys.all Char.isDigit &&
      decide (1 ≤ ms.length) && ms.length ≤ 2 && ms.all Char.isDigit &&
      decide (1 ≤ ds.length) && ds.length ≤ 2 && ds.all Char.isDigit &&
      (let y := digitsVal ys
       let m := digitsVal ms
       let d := digitsVal ds
       decide (1 ≤ y) && decide (1 ≤ m) && m ≤ 12 &&
       decide (1 ≤ d) && d ≤ daysInMonth y m)
  | _ => false

/-- Model of `datetime.strptime(s, "%Y-%m")` succeeding (month prompt of
the monthly summary). -/
def isValidMonth (s : String) : Bool :=
  match splitOnChar '-' s.data with
  | [ys, ms] =>
      ys.length == 4 && ys.all Char.isDigit &&
      decide (1 ≤ ms.length) && ms.length ≤ 2 && ms.all Char.isDigit &&
      decide (1 ≤ digitsVal ys) &&
      decide (1 ≤ digitsVal ms) && digitsVal ms ≤ 12
  | _ => false

/-- A record that the validated `add` entry point can produce: the date
parses with `strptime("%Y-%m-%d")` and the amount is strictly positive. -/
def validExpense (e : Expense) : Bool :=
  isValidDate e.date && decide (0 < e.amount)

namespace Expense

/-- `Expense.to_dict` (lines 39-45). -/
def to_dict (e : Expense) : JDict :=
  { date := some e.date
    description := some e.description
    category := some e.category
    amount := some (JAmount.num e.amount) }

/-- `Expense.from_dict` (lines 47-54). `d["date"]` and `d["description"]`
raise `KeyError` when absent; `d.get("category", "Other")` defaults;
`float(d["amount"])` raises `KeyError` when absent, `ValueError` on a
non-numeric string, `TypeError` on a non-number non-string value. -/
def from_dict (d : JDict) : Except String Expense :=
  match d.date with
  | none => Except.error "KeyError: date"
  | some date =>
    match d.description with
    | none => Except.error "KeyError: description"
    | some desc =>
      let cat := d.category.getD "Other"
      match d.amount with
      | none => Except.error "KeyError: amount"
      | some (JAmount.num q) => Except.ok ⟨date, desc, cat, q⟩
      | some (JAmount.str s) =>
          match pyFloat s with
          | some q => Except.ok ⟨date, desc, cat, q⟩
          | none => Except.error "ValueError: could not convert string to float"
      | some JAmount.other => Except.error "TypeError: float() argument"

end Expense

/-- State of the snapshot file `expenses.json`. -/
inductive FileState where
  | absent
  | invalidJson
  | content (items : List JDict)
deriving DecidableEq, Repr

/-- The list comprehension `[Expense.from_dict(item) for item in data]`
(line 63): evaluated left to right, the first exception propagates. -/
def loadItems : List JDict → Except String (List Expense)
  | [] => Except.ok []
  | d :: rest =>
    match Expense.from_dict d with
    | Except.error m => Except.error m
    | Except.ok e =>
      match loadItems rest with
      | Except.error m => Except.error m
      | Except.ok es => Except.ok (e :: es)

/-- `load_expenses` (lines 57-66): missing file yields `[]`; a file that
fails JSON parsing raises `json.JSONDecodeError`, which IS caught (an
error is printed and `[]` returned); exceptions raised by
`Expense.from_dict` on parsed content are NOT caught and escape. -/
def load_expenses : FileState → Except String (List Expense)
  | FileState.absent => Except.ok []
  | FileState.invalidJson => Except.ok []
  | FileState.content items => loadItems items

/-- The in-memory program state: the global `expenses` list, the snapshot
file, and a counter of `save_expenses` invocations. -/
structure TrackerState where
  expenses : List Expense
  file : FileState
  saveCount : ℕ
deriving DecidableEq, Repr

/-- `save_expenses` (lines 73-78) on the success path: writes
`[exp.to_dict() for exp in expenses]` as the new file content. -/
def save_expenses (st : TrackerState) : TrackerState :=
  { expenses := st.expenses
    file := FileState.content (st.expenses.map Expense.to_dict)
    saveCount := st.saveCount + 1 }

/-- The snapshot content produced by saving a given record list. -/
def save_file (es : List Expense) : FileState :=
  FileState.content (es.map Expense.to_dict)

theorem from_dict_to_dict (e : Expense) :
    Expense.from_dict (Expense.to_dict e) = Except.ok e := rfl

theorem loadItems_map_to_dict (es : List Expense) :
    loadItems (es.map Expense.to_dict) = Except.ok es := by
  induction es with
  | nil => rfl
  | cons e rest ih => simp [loadItems, from_dict_to_dict, ih]

/-- C1: saving any sequence of valid records and loading it back yields
the same sequence, order and all four fields preserved. -/
theorem save_load_roundtrip (es : List Expense)
    (_h : ∀ e ∈ es, validExpense e = true) :
    load_expenses (save_file es) = Except.ok es := by
  simpa [load_expenses, save_file] using loadItems_map_to_dict es

/-- Witness for C1 at a concrete two-record sequence. -/
theorem save_load_roundtrip_witness :
    load_expenses (save_file
        [⟨"2024-03-15", "lunch", "Food", 100⟩,
         ⟨"2024-03-16", "bus", "Transport", 10⟩]) =
      Except.ok
        [⟨"2024-03-15", "lunch", "Food", 100⟩,
         ⟨"2024-03-16", "bus", "Transport", 10⟩] :=
  save_load_roundtrip _ (by decide)

theorem loadItems_error_of_mem (items : List JDict) (d : JDict) (m : String)
    (hd : d ∈ items) (he : Expense.from_dict d = Except.error m) :
    ∃ m2, loadItems items = Except.error m2 := by
  induction items with
  | nil => cases hd
  | cons a rest ih =>
    rcases List.mem_cons.mp hd with h | h
    · subst h
      exact ⟨m, by simp [loadItems, he]⟩
    · rcases ih h with ⟨m2, hm2⟩
      cases ha : Expense.from_dict a with
      | error m3 => exact ⟨m3, by simp [loadItems, ha]⟩
      | ok e => exact ⟨m2, by simp [loadItems, ha, hm2]⟩

/-- C2, counterexample: a snapshot that parses as JSON but whose single
object is missing every required field makes `load_expenses` raise an
uncaught `KeyError` — it does not return the empty sequence, so loading
malformed-but-parseable content is fatal, contradicting the claim. -/
theorem load_missing_fields_raises :
    load_expenses (FileState.content [⟨none, none, none, none⟩]) =
        Except.error "KeyError: date" ∧
      load_expenses (FileState.content [⟨none, none, none, none⟩]) ≠
        Except.ok [] := by
  constructor
  · rfl
  · intro h
    simp [load_expenses, loadItems, Expense.from_dict] at h

/-- C2, amended: a missing file, an unparseable file, and an I/O error
during reading all yield the empty sequence with only a printed warning
(the `except` clause catches `json.JSONDecodeError` and `IOError`); but
content that parses as JSON and contains an object on which
`Expense.from_dict` raises (missing `date`/`description`/`amount` key,
or a non-float-convertible `amount`) makes `load_expenses` raise an
uncaught exception, which is fatal at startup. -/
theorem load_malformed_policy (items : List JDict) :
    load_expenses FileState.invalidJson = Except.ok [] ∧
      load_expenses FileState.absent = Except.ok [] ∧
      ((∃ d ∈ items, ∃ m, Expense.from_dict d = Except.error m) →
        ∃ m2, load_expenses (FileState.content items) = Except.error m2) := by
  refine ⟨rfl, rfl, ?_⟩
  rintro ⟨d, hd, m, hm⟩
  exact loadItems_error_of_mem items d m hd hm

/-- Witness for C2's amended theorem at a concrete malformed item. -/
theorem load_malformed_policy_witness :
    ∃ m2, load_expenses
        (FileState.content [⟨some "2024-01-01", some "x", none, none⟩]) =
      Except.error m2 :=
  (load_malformed_policy [⟨some "2024-01-01", some "x", none, none⟩]).2.2
    ⟨⟨some "2024-01-01", some "x", none, none⟩, by simp,
      "KeyError: amount", rfl⟩

/-- The date prompt loop of `add_expense` (lines 85-91): re-prompts until
`strptime` accepts; returns the first accepted attempt, `none` when no
attempt is ever accepted (the loop never exits). -/
def firstValidDate : List String → Option String
  | [] => none
  | s :: rest => if isValidDate s then some s else firstValidDate rest

/-- The amount prompt loop of `add_expense` (lines 100-109): re-prompts
on a `float` parse failure and on `amount <= 0`; returns the first
accepted value, `none` when no attempt is ever accepted. -/
def firstValidAmount : List String → Option ℚ
  | [] => none
  | s :: rest =>
    match pyFloat s with
    | some q => if q ≤ 0 then firstValidAmount rest else some q
    | none => firstValidAmount rest

/-- The same amount prompt loop (lines 100-109) over full float values:
`float` failure re-prompts, a parsed value with `amount <= 0` re-prompts
(NaN fails that comparison and so is NOT re-prompted), anything else is
accepted. `firstValidAmount` is its restriction to the finite-valued
inputs. -/
def firstValidAmountF : List String → Option PyFloatVal
  | [] => none
  | s :: rest =>
    match pyFloatF s with
    | some v => if pyLe0 v then firstValidAmountF rest else some v
    | none => firstValidAmountF rest

/-- `add_expense` (lines 81-114), with each interactive prompt loop fed a
list of successive input attempts. An empty category defaults to
`"Other"`; the new record is appended and `save_expenses` called once.
When a prompt loop never receives an acceptable input the process stays
at that prompt forever; no mutation of the record list or the file is
observable, so the state is returned unchanged. -/
def add_expense (st : TrackerState) (dateAttempts : List String)
    (description category : String) (amountAttempts : List String) :
    TrackerState :=
  match firstValidDate dateAttempts, firstValidAmount amountAttempts with
  | some date, some amount =>
    let e : Expense :=
      ⟨date, description, if category = "" then "Other" else category, amount⟩
    save_expenses { st with expenses := st.expenses ++ [e] }
  | _, _ => st

/-- C3: with a validated date and amount, `add_expense` appends exactly
one new record at the end, leaves the existing records untouched, saves
the full new list to the file, and invokes `save_expenses` exactly once. -/
theorem add_appends_one (st : TrackerState) (dateAttempts : List String)
    (description category : String) (amountAttempts : List String)
    (date : String) (amount : ℚ)
    (hd : firstValidDate dateAttempts = some date)
    (ha : firstValidAmount amountAttempts = some amount) :
    (add_expense st dateAttempts description category amountAttempts).expenses
        = st.expenses ++
            [⟨date, description,
              if category = "" then "Other" else category, amount⟩] ∧
      (add_expense st dateAttempts description category
            amountAttempts).saveCount = st.saveCount + 1 ∧
      (add_expense st dateAttempts description category amountAttempts).file
        = save_file ((add_expense st dateAttempts description category
            amountAttempts).expenses) := by
  simp [add_expense, hd, ha, save_expenses, save_file]

/-- Witness for C3 at a concrete state and concrete inputs. -/
theorem add_appends_one_witness :
    (add_expense ⟨[⟨"2024-01-01", "a", "Food", 5⟩], save_file
          [⟨"2024-01-01", "a", "Food", 5⟩], 3⟩
        ["2024-13-01", "2024-02-29"] "taxi" "" ["abc", "0", "7"]).expenses
      = [⟨"2024-01-01", "a", "Food", 5⟩, ⟨"2024-02-29", "taxi", "Other", 7⟩] :=
  (add_appends_one _ _ _ _ _ "2024-02-29" 7 (by decide) (by decide)).1

theorem parseSpecialMag_not_fin (cs : List Char) (q : ℚ) :
    parseSpecialMag cs ≠ some (PyFloatVal.fin q) := by
  unfold parseSpecialMag
  by_cases h1 : cs.map Char.toLower = ['n', 'a', 'n']
  · simp [h1]
  · by_cases h2 : cs.map Char.toLower = ['i', 'n', 'f'] ∨
        cs.map Char.toLower = ['i', 'n', 'f', 'i', 'n', 'i', 't', 'y']
    · simp [h1, h2]
    · simp [h1, h2]

theorem parseSpecial_not_fin (s : String) (q : ℚ) :
    parseSpecial s ≠ some (PyFloatVal.fin q) := by
  unfold parseSpecial
  split
  · cases hm : parseSpecialMag _ with
    | none => simp
    | some v => cases v <;> simp
  · exact parseSpecialMag_not_fin _ q
  · exact parseSpecialMag_not_fin _ q

theorem firstValidAmount_pos (l : List String) (a : ℚ)
    (h : firstValidAmount l = some a) : 0 < a := by
  induction l with
  | nil => cases h
  | cons s rest ih =>
    rw [firstValidAmount] at h
    cases hp : pyFloat s with
    | none => rw [hp] at h; exact ih h
    | some q =>
      rw [hp] at h
      replace h : (if q ≤ 0 then firstValidAmount rest else some q)
          = some a := h
      by_cases hq : q ≤ 0
      · rw [if_pos hq] at h; exact ih h
      · rw [if_neg hq] at h
        cases h
        exact lt_of_not_le hq

theorem firstValidAmountF_none_q (l : List String)
    (h : firstValidAmountF l = none) : firstValidAmount l = none := by
  induction l with
  | nil => rfl
  | cons s rest ih =>
    rw [firstValidAmountF] at h
    rw [firstValidAmount]
    cases hp : pyFloat s with
    | none =>
      show firstValidAmount rest = none
      have hF : pyFloatF s = parseSpecial s := by rw [pyFloatF, hp]
      rw [hF] at h
      cases hps : parseSpecial s with
      | none => rw [hps] at h; exact ih h
      | some v =>
        rw [hps] at h
        replace h : (if pyLe0 v then firstValidAmountF rest else some v)
            = none := h
        by_cases hv : pyLe0 v = true
        · rw [if_pos hv] at h; exact ih h
        · rw [if_neg hv] at h; cases h
    | some q =>
      have hF : pyFloatF s = some (PyFloatVal.fin q) := by rw [pyFloatF, hp]
      rw [hF] at h
      replace h : (if pyLe0 (PyFloatVal.fin q) then firstValidAmountF rest
          else some (PyFloatVal.fin q)) = none := h
      show (if q ≤ 0 then firstValidAmount rest else some q) = none
      by_cases hq : q ≤ 0
      · rw [if_pos hq]
        rw [if_pos (show pyLe0 (PyFloatVal.fin q) = true by
          simp [pyLe0, hq])] at h
        exact ih h
      · rw [if_neg (show ¬pyLe0 (PyFloatVal.fin q) = true by
          simp [pyLe0, hq])] at h
        cases h

theorem firstValidAmountF_fin (l : List String) (q : ℚ)
    (h : firstValidAmountF l = some (PyFloatVal.fin q)) :
    firstValidAmount l = some q := by
  induction l with
  | nil => cases h
  | cons s rest ih =>
    rw [firstValidAmountF] at h
    rw [firstValidAmount]
    cases hp : pyFloat s with
    | none =>
      show firstValidAmount rest = some q
      have hF : pyFloatF s = parseSpecial s := by rw [pyFloatF, hp]
      rw [hF] at h
      cases hps : parseSpecial s with
      | none => rw [hps] at h; exact ih h
      | some v =>
        rw [hps] at h
        replace h : (if pyLe0 v then firstValidAmountF rest else some v)
            = some (PyFloatVal.fin q) := h
        by_cases hv : pyLe0 v = true
        · rw [if_pos hv] at h; exact ih h
        · rw [if_neg hv] at h
          cases h
          exact absurd hps (parseSpecial_not_fin s q)
    | some q2 =>
      have hF : pyFloatF s = some (PyFloatVal.fin q2) := by rw [pyFloatF, hp]
      rw [hF] at h
      replace h : (if pyLe0 (PyFloatVal.fin q2) then firstValidAmountF rest
          else some (PyFloatVal.fin q2)) = some (PyFloatVal.fin q) := h
      show (if q2 ≤ 0 then firstValidAmount rest else some q2) = some q
      by_cases hq : q2 ≤ 0
      · rw [if_pos hq]
        rw [if_pos (show pyLe0 (PyFloatVal.fin q2) = true by
          simp [pyLe0, hq])] at h
        exact ih h
      · rw [if_neg hq]
        rw [if_neg (show ¬pyLe0 (PyFloatVal.fin q2) = true by
          simp [pyLe0, hq])] at h
        cases h
        rfl

theorem firstValidAmountF_accepted (l : List String) (v : PyFloatVal)
    (h : firstValidAmountF l = some v) :
    pyGt0 v = true ∨ v = PyFloatVal.nan := by
  induction l with
  | nil => cases h
  | cons s rest ih =>
    rw [firstValidAmountF] at h
    cases hp : pyFloatF s with
    | none => rw [hp] at h; exact ih h
    | some v2 =>
      rw [hp] at h
      replace h : (if pyLe0 v2 then firstValidAmountF rest else some v2)
          = some v := h
      by_cases hv : pyLe0 v2 = true
      · rw [if_pos hv] at h; exact ih h
      · rw [if_neg hv] at h
        cases h
        cases v with
        | fin q =>
          refine Or.inl ?_
          have hq : ¬q ≤ 0 := by
            intro hle
            exact hv (by simp [pyLe0, hle])
          simp [pyGt0, lt_of_not_le hq]
        | nan => exact Or.inr rfl
        | inf => exact Or.inl rfl
        | ninf => exact absurd rfl hv

/-- C9, counterexample: the amount input `"nan"` defeats the validation
boundary: `float("nan")` succeeds, the `amount <= 0` test is `False`
(every comparison with NaN is), so the add loop accepts it and the
created record's amount is NaN - which is not strictly greater than
zero. The claim that every record created through the validated add
entry point has a strictly positive amount is therefore false at this
input. -/
theorem add_accepts_nan :
    pyFloatF "nan" = some PyFloatVal.nan ∧
      pyLe0 PyFloatVal.nan = false ∧
      firstValidAmountF ["nan"] = some PyFloatVal.nan ∧
      pyGt0 PyFloatVal.nan = false := by
  refine ⟨by rfl, rfl, ?_, rfl⟩
  rw [firstValidAmountF]
  rw [show pyFloatF "nan" = some PyFloatVal.nan from by rfl]
  rfl

/-- C9, amended: an add amount attempt that fails `float` parsing or
parses to a value with `value <= 0` true (zero, negative finite values,
negative infinity) is rejected at the validation boundary - the loop
re-prompts and nothing is mutated - and when every attempt is rejected
`add_expense` leaves the state completely unchanged; an accepted amount
is either strictly positive or NaN (the `nan` literal passes the gate
because NaN compares false with everything); hence every record created
through the validated add entry point has a strictly positive amount
except for the NaN-amount records created from a `nan` input, and
within the finite-amount data model every added record's amount is
strictly positive. -/
theorem add_amount_float_policy (st : TrackerState)
    (dateAttempts : List String) (description category : String)
    (amountAttempts : List String) :
    (firstValidAmountF amountAttempts = none →
        add_expense st dateAttempts description category amountAttempts = st) ∧
      (∀ s rest, (pyFloatF s = none ∨
          ∃ v, pyFloatF s = some v ∧ pyLe0 v = true) →
        firstValidAmountF (s :: rest) = firstValidAmountF rest) ∧
      (∀ v, firstValidAmountF amountAttempts = some v →
        pyGt0 v = true ∨ v = PyFloatVal.nan) ∧
      (∀ q, firstValidAmountF amountAttempts = some (PyFloatVal.fin q) →
        firstValidAmount amountAttempts = some q ∧ 0 < q) ∧
      (∀ e, e ∈ (add_expense st dateAttempts description category
          amountAttempts).expenses →
        e ∈ st.expenses ∨ 0 < e.amount) := by
  refine ⟨?_, ?_, firstValidAmountF_accepted amountAttempts, ?_, ?_⟩
  · intro hnone
    unfold add_expense
    rw [firstValidAmountF_none_q amountAttempts hnone]
    cases firstValidDate dateAttempts <;> rfl
  · intro s rest hbad
    rw [firstValidAmountF]
    rcases hbad with hn | ⟨v, hv, hle⟩
    · rw [hn]
    · rw [hv]
      show (if pyLe0 v then firstValidAmountF rest else some v)
          = firstValidAmountF rest
      rw [if_pos hle]
  · intro q hF
    have hq := firstValidAmountF_fin amountAttempts q hF
    exact ⟨hq, firstValidAmount_pos amountAttempts q hq⟩
  · intro e he
    unfold add_expense at he
    cases hd : firstValidDate dateAttempts with
    | none => rw [hd] at he; exact Or.inl he
    | some date =>
      cases ha : firstValidAmount amountAttempts with
      | none => rw [hd, ha] at he; exact Or.inl he
      | some a =>
        rw [hd, ha] at he
        simp only [save_expenses, List.mem_append, List.mem_singleton] at he
        rcases he with he | he
        · exact Or.inl he
        · subst he
          exact Or.inr (firstValidAmount_pos amountAttempts a ha)

/-- Witness for C9's amended theorem: all-rejected amount attempts
(negative, zero, non-numeric, negative infinity) leave the state
unchanged, and a concrete accepted finite amount is positive. -/
theorem add_amount_float_policy_witness :
    (add_expense ⟨[], FileState.absent, 0⟩ ["2024-01-01"] "x" ""
          ["-3", "0", "abc", "-inf"] = ⟨[], FileState.absent, 0⟩) ∧
      (firstValidAmount ["7"] = some 7 ∧ 0 < (7 : ℚ)) := by
  refine ⟨(add_amount_float_policy ⟨[], FileState.absent, 0⟩ ["2024-01-01"]
      "x" "" ["-3", "0", "abc", "-inf"]).1 (by decide), ?_⟩
  exact (add_amount_float_policy ⟨[], FileState.absent, 0⟩ [] "" ""
      ["7"]).2.2.2.1 7 (by decide)

/-- Error conditions that the delete and update dialogs report before
touching any record. -/
inductive ErrKind where
  | noExpenses
  | outOfRange
deriving DecidableEq, Repr

/-- Observable outcome of one pass of the delete dialog. -/
structure DeleteResult where
  state : TrackerState
  removed : Option Expense
  err : Option ErrKind
deriving DecidableEq, Repr

/-- `delete_expense` (lines 270-317), one attempt of the ID prompt: with
no records it reports and returns; an in-range ID pops the record at
`idx - 1` when the user confirms (saving once) and does nothing when the
user declines; an out-of-range ID is reported and nothing changes. -/
def delete_expense (st : TrackerState) (idx : ℕ) (confirmed : Bool) :
    DeleteResult :=
  if st.expenses.isEmpty then ⟨st, none, some ErrKind.noExpenses⟩
  else if 1 ≤ idx ∧ idx ≤ st.expenses.length then
    if confirmed then
      ⟨save_expenses { st with expenses := st.expenses.eraseIdx (idx - 1) },
        st.expenses[idx - 1]?, none⟩
    else ⟨st, none, none⟩
  else ⟨st, none, some ErrKind.outOfRange⟩

/-- The date prompt loop of `update_expense` (lines 351-360): empty input
keeps the current value, a valid date replaces it, an invalid one
re-prompts; `none` when the loop never exits. -/
def resolveDateLoop (current : String) : List String → Option String
  | [] => none
  | s :: rest =>
    if s = "" then some current
    else if isValidDate s then some s
    else resolveDateLoop current rest

/-- The amount prompt loop of `update_expense` (lines 373-386): empty
input keeps the current value, a parse failure or a value `<= 0`
re-prompts, a positive parsed value replaces it; `none` when the loop
never exits. -/
def resolveAmountLoop (current : ℚ) : List String → Option ℚ
  | [] => none
  | s :: rest =>
    if s = "" then some current
    else
      match pyFloat s with
      | some q => if q ≤ 0 then resolveAmountLoop current rest else some q
      | none => resolveAmountLoop current rest

/-- Observable outcome of the update dialog. -/
structure UpdateResult where
  state : TrackerState
  err : Option ErrKind
deriving DecidableEq, Repr

/-- Placeholder record for the unreachable lookup-miss branch. -/
def dfltExpense : Expense := ⟨"", "", "", 0⟩

/-- `update_expense` (lines 320-389), one attempt of the ID prompt, with
the two field-prompt loops fed attempt lists and the description and
category prompts fed single inputs (empty means keep the current value).
An in-range ID rewrites the record in place and saves once; `none`
models the process stuck forever inside a field prompt loop, where no
save ever happens. -/
def update_expense (st : TrackerState) (idx : ℕ) (dateAttempts : List String)
    (newDesc newCat : String) (amountAttempts : List String) :
    Option UpdateResult :=
  if st.expenses.isEmpty then some ⟨st, some ErrKind.noExpenses⟩
  else if 1 ≤ idx ∧ idx ≤ st.expenses.length then
    let e := (st.expenses[idx - 1]?).getD dfltExpense
    match resolveDateLoop e.date dateAttempts,
        resolveAmountLoop e.amount amountAttempts with
    | some date, some amount =>
      let e2 : Expense :=
        ⟨date, if newDesc = "" then e.description else newDesc,
          if newCat = "" then e.category else newCat, amount⟩
      some ⟨save_expenses { st with expenses := st.expenses.set (idx - 1) e2 },
        none⟩
    | _, _ => none
  else some ⟨st, some ErrKind.outOfRange⟩

theorem list_set_getD_self {α : Type} (l : List α) (i : ℕ) (dflt : α)
    (h : i < l.length) : l.set i ((l[i]?).getD dflt) = l := by
  induction l generalizing i with
  | nil => cases h
  | cons a rest ih =>
    cases i with
    | zero => simp
    | succ n =>
      have hn : n < rest.length := Nat.lt_of_succ_lt_succ h
      simp only [List.getElem?_cons_succ, List.set]
      rw [ih n hn]

theorem expenses_nonempty_of_le {st : TrackerState} {p : ℕ}
    (h1 : 1 ≤ p) (h2 : p ≤ st.expenses.length) :
    st.expenses.isEmpty = false := by
  cases hl : st.expenses with
  | nil => rw [hl] at h2; simp at h2; omega
  | cons a rest => rfl

/-- C4: a confirmed in-range delete removes exactly the record at the
1-based position `p` (the list becomes the part before it followed by
the part after it, so later records shift down by one), the length drops
by exactly one, the removed record is returned, and one save happens. -/
theorem delete_removes_at (st : TrackerState) (p : ℕ)
    (h1 : 1 ≤ p) (h2 : p ≤ st.expenses.length) :
    (delete_expense st p true).state.expenses
        = st.expenses.take (p - 1) ++ st.expenses.drop p ∧
      (delete_expense st p true).state.expenses.length
        = st.expenses.length - 1 ∧
      (delete_expense st p true).removed = st.expenses[p - 1]? ∧
      (delete_expense st p true).state.saveCount = st.saveCount + 1 := by
  have hlen : p - 1 < st.expenses.length := by omega
  have hne := expenses_nonempty_of_le h1 h2
  have hd : delete_expense st p true =
      ⟨save_expenses { st with expenses := st.expenses.eraseIdx (p - 1) },
        st.expenses[p - 1]?, none⟩ := by
    unfold delete_expense
    rw [hne]
    simp [h1, h2]
  rw [hd]
  refine ⟨?_, ?_, rfl, rfl⟩
  · show st.expenses.eraseIdx (p - 1) = _
    rw [List.eraseIdx_eq_take_drop_succ]
    have : p - 1 + 1 = p := by omega
    rw [this]
  · show (st.expenses.eraseIdx (p - 1)).length = _
    rw [List.length_eraseIdx_of_lt hlen]

/-- Witness for C4 at position 2 of a three-record list. -/
theorem delete_removes_at_witness :
    (delete_expense ⟨[⟨"2024-01-01", "a", "Food", 1⟩,
          ⟨"2024-01-02", "b", "Food", 2⟩, ⟨"2024-01-03", "c", "Food", 3⟩],
        FileState.absent, 0⟩ 2 true).state.expenses
      = [⟨"2024-01-01", "a", "Food", 1⟩, ⟨"2024-01-03", "c", "Food", 3⟩] := by
  have h := (delete_removes_at ⟨[⟨"2024-01-01", "a", "Food", 1⟩,
      ⟨"2024-01-02", "b", "Food", 2⟩, ⟨"2024-01-03", "c", "Food", 3⟩],
    FileState.absent, 0⟩ 2 (by decide) (by decide)).1
  rw [h]
  rfl

/-- C5: with a position outside `[1, length]` (in particular `0` and
`length + 1`), both dialogs leave the whole state - records, file and
save counter - unchanged and report an error: the out-of-range message
when records exist, the no-records message otherwise. -/
theorem out_of_range_rejected (st : TrackerState) (p : ℕ) (confirmed : Bool)
    (dateAttempts : List String) (newDesc newCat : String)
    (amountAttempts : List String)
    (h : ¬(1 ≤ p ∧ p ≤ st.expenses.length)) :
    (delete_expense st p confirmed).state = st ∧
      (delete_expense st p confirmed).removed = none ∧
      (delete_expense st p confirmed).err.isSome = true ∧
      (st.expenses ≠ [] →
        (delete_expense st p confirmed).err = some ErrKind.outOfRange) ∧
      update_expense st p dateAttempts newDesc newCat amountAttempts
        = some ⟨st, some (if st.expenses.isEmpty then ErrKind.noExpenses
            else ErrKind.outOfRange)⟩ := by
  cases hemp : st.expenses.isEmpty with
  | true =>
    have hnil : st.expenses = [] := by
      cases hl : st.expenses with
      | nil => rfl
      | cons a rest => rw [hl] at hemp; simp at hemp
    constructor
    · unfold delete_expense; rw [hemp]; simp
    constructor
    · unfold delete_expense; rw [hemp]; simp
    constructor
    · unfold delete_expense; rw [hemp]; simp
    constructor
    · intro hne; exact absurd hnil hne
    · unfold update_expense; rw [hemp]; simp
  | false =>
    have hdel : delete_expense st p confirmed =
        ⟨st, none, some ErrKind.outOfRange⟩ := by
      unfold delete_expense; rw [hemp]; simp [h]
    refine ⟨by rw [hdel], by rw [hdel], by rw [hdel]; rfl,
      fun _ => by rw [hdel], ?_⟩
    unfold update_expense
    rw [hemp]
    simp [h]

/-- Witness for C5 at `p = 0` and one record. -/
theorem out_of_range_rejected_witness :
    (delete_expense ⟨[⟨"2024-01-01", "a", "Food", 1⟩], FileState.absent, 0⟩
        0 true).state
      = ⟨[⟨"2024-01-01", "a", "Food", 1⟩], FileState.absent, 0⟩ :=
  (out_of_range_rejected ⟨[⟨"2024-01-01", "a", "Food", 1⟩],
      FileState.absent, 0⟩ 0 true [] "" "" [] (by decide)).1

/-- C6: an in-range update dialog in which every prompt is answered with
empty input (keep everything) leaves every record - all four fields of
the record at `p` included - unchanged, yet still rewrites the snapshot
file and invokes the save exactly once. -/
theorem update_no_fields_noop (st : TrackerState) (p : ℕ)
    (h1 : 1 ≤ p) (h2 : p ≤ st.expenses.length) :
    update_expense st p [""] "" "" [""]
      = some ⟨⟨st.expenses, save_file st.expenses, st.saveCount + 1⟩, none⟩ := by
  have hlen : p - 1 < st.expenses.length := by omega
  have hne := expenses_nonempty_of_le h1 h2
  have hset := list_set_getD_self st.expenses (p - 1) dfltExpense hlen
  have hstep : update_expense st p [""] "" "" [""]
      = some (UpdateResult.mk (save_expenses (TrackerState.mk
          (st.expenses.set (p - 1) ((st.expenses[p - 1]?).getD dfltExpense))
          st.file st.saveCount)) none) := by
    unfold update_expense
    rw [hne]
    rw [if_neg (by simp)]
    rw [if_pos ⟨h1, h2⟩]
    rfl
  rw [hstep, hset]
  rfl

/-- Witness for C6 at position 1 of a one-record list. -/
theorem update_no_fields_noop_witness :
    update_expense ⟨[⟨"2024-01-01", "a", "Food", 5⟩], FileState.absent, 4⟩
        1 [""] "" "" [""]
      = some ⟨⟨[⟨"2024-01-01", "a", "Food", 5⟩],
          save_file [⟨"2024-01-01", "a", "Food", 5⟩], 5⟩, none⟩ :=
  update_no_fields_noop ⟨[⟨"2024-01-01", "a", "Food", 5⟩],
    FileState.absent, 4⟩ 1 (by decide) (by decide)

theorem resolveAmountLoop_pos (c : ℚ) (l : List String) (q : ℚ)
    (hc : 0 < c) (h : resolveAmountLoop c l = some q) : 0 < q := by
  induction l with
  | nil => cases h
  | cons s rest ih =>
    rw [resolveAmountLoop] at h
    by_cases hs : s = ""
    · rw [if_pos hs] at h; cases h; exact hc
    · rw [if_neg hs] at h
      cases hp : pyFloat s with
      | none => rw [hp] at h; exact ih h
      | some q2 =>
        rw [hp] at h
        replace h : (if q2 ≤ 0 then resolveAmountLoop c rest else some q2)
            = some q := h
        by_cases hq : q2 ≤ 0
        · rw [if_pos hq] at h; exact ih h
        · rw [if_neg hq] at h; cases h; exact lt_of_not_le hq

/-- C10: the update amount loop applies the same strict-positivity rule
as `add`: an attempt that is non-numeric or `<= 0` is rejected (the loop
just re-prompts, the record keeps its current amount); an amount the
loop does accept is positive whenever the current one is; consequently
an update of a store of positive-amount records leaves every amount
strictly positive. -/
theorem update_amount_validation (cur : ℚ) (st : TrackerState) (p : ℕ)
    (dateAttempts : List String) (newDesc newCat : String)
    (amountAttempts : List String) (res : UpdateResult) :
    (∀ s rest, s ≠ "" → (pyFloat s = none ∨ ∃ q, pyFloat s = some q ∧ q ≤ 0) →
        resolveAmountLoop cur (s :: rest) = resolveAmountLoop cur rest) ∧
      (∀ q, 0 < cur → resolveAmountLoop cur amountAttempts = some q → 0 < q) ∧
      ((∀ e ∈ st.expenses, 0 < e.amount) →
        update_expense st p dateAttempts newDesc newCat amountAttempts
          = some res →
        ∀ e ∈ res.state.expenses, 0 < e.amount) := by
  refine ⟨?_, fun q hc h => resolveAmountLoop_pos cur amountAttempts q hc h, ?_⟩
  · intro s rest hs hbad
    rw [resolveAmountLoop, if_neg hs]
    rcases hbad with hn | ⟨q, hq, hle⟩
    · rw [hn]
    · rw [hq]
      show (if q ≤ 0 then resolveAmountLoop cur rest else some q)
          = resolveAmountLoop cur rest
      rw [if_pos hle]
  · intro hall hupd e he
    unfold update_expense at hupd
    by_cases hemp : st.expenses.isEmpty = true
    · rw [if_pos hemp] at hupd
      cases hupd
      exact hall e he
    · rw [if_neg hemp] at hupd
      by_cases hrange : 1 ≤ p ∧ p ≤ st.expenses.length
      · rw [if_pos hrange] at hupd
        simp only [] at hupd
        have hlen : p - 1 < st.expenses.length := by omega
        have hmem0 : (st.expenses[p - 1]?).getD dfltExpense ∈ st.expenses := by
          rw [List.getElem?_eq_getElem hlen]
          exact List.getElem_mem hlen
        cases hd : resolveDateLoop ((st.expenses[p - 1]?).getD
            dfltExpense).date dateAttempts with
        | none =>
          rw [hd] at hupd
          exact Option.noConfusion hupd
        | some date =>
          rw [hd] at hupd
          cases ha : resolveAmountLoop ((st.expenses[p - 1]?).getD
              dfltExpense).amount amountAttempts with
          | none =>
            rw [ha] at hupd
            exact Option.noConfusion hupd
          | some amount =>
            rw [ha] at hupd
            cases hupd
            rcases List.mem_or_eq_of_mem_set he with hmem | heq
            · exact hall e hmem
            · subst heq
              show 0 < _
              exact resolveAmountLoop_pos _ amountAttempts _
                (hall _ hmem0) ha
      · rw [if_neg hrange] at hupd
        cases hupd
        exact hall e he

/-- Witness for C10: a zero attempt is skipped, an accepted amount stays
positive, and a concrete positive-amount update keeps all amounts
positive. -/
theorem update_amount_validation_witness :
    resolveAmountLoop 5 ["0", "7"] = resolveAmountLoop 5 ["7"] ∧
      (0 : ℚ) < 5 ∧
      (∀ e ∈ (UpdateResult.mk ⟨[⟨"2024-01-01", "a", "Food", 2⟩],
          save_file [⟨"2024-01-01", "a", "Food", 2⟩], 1⟩ none).state.expenses,
        0 < e.amount) := by
  refine ⟨?_, by decide, ?_⟩
  · exact (update_amount_validation 5 ⟨[], FileState.absent, 0⟩ 0 [] "" "" []
      ⟨⟨[], FileState.absent, 0⟩, none⟩).1 "0" ["7"] (by decide)
      (Or.inr ⟨0, by decide, by decide⟩)
  · exact (update_amount_validation 5
      ⟨[⟨"2024-01-01", "a", "Food", 5⟩], FileState.absent, 0⟩ 1 [""] "" ""
      ["2"] ⟨⟨[⟨"2024-01-01", "a", "Food", 2⟩],
        save_file [⟨"2024-01-01", "a", "Food", 2⟩], 1⟩, none⟩).2.2
      (by decide) (by decide)

/-- One iteration of the `view_expense_by_day` loop (lines 134-138): on a
date match the record is printed (collected here in order) and its
amount added to the running total, and the found flag is set. -/
def viewDayStep (target : String) (acc : List Expense × ℚ × Bool)
    (e : Expense) : List Expense × ℚ × Bool :=
  if target = e.date then (acc.1 ++ [e], acc.2.1 + e.amount, true) else acc

/-- `view_expense_by_day` (lines 117-144): the printed matches in store
order, the printed total, and the found flag (`false` prints the
"No expenses found" message instead of an error). The loop only reads
the record list. -/
def view_expense_by_day (es : List Expense) (target : String) :
    List Expense × ℚ × Bool :=
  es.foldl (viewDayStep target) ([], 0, false)

theorem viewDay_foldl (target : String) (es : List Expense)
    (ms : List Expense) (tot : ℚ) (fnd : Bool) :
    es.foldl (viewDayStep target) (ms, tot, fnd)
      = (ms ++ es.filter (fun e => target == e.date),
         tot + ((es.filter (fun e => target == e.date)).map
           Expense.amount).sum,
         fnd || es.any (fun e => target == e.date)) := by
  induction es generalizing ms tot fnd with
  | nil => simp
  | cons a rest ih =>
    simp only [List.foldl_cons, viewDayStep]
    by_cases h : target = a.date
    · rw [if_pos h, ih]
      simp [h, List.filter_cons, add_assoc]
    · rw [if_neg h, ih]
      have hb : (target == a.date) = false := by
        exact beq_false_of_ne h
      simp [List.filter_cons, hb]

/-- C7: the by-day view selects exactly the records whose date string
equals the target (string equality), reports the sum of their amounts,
and sets its found flag exactly when some record matches (an empty match
list is reported as "not found" with total `0`, not as an error); the
computation only reads the sequence. -/
theorem view_by_day_correct (es : List Expense) (target : String) :
    (view_expense_by_day es target).1
        = es.filter (fun e => target == e.date) ∧
      (view_expense_by_day es target).2.1
        = ((es.filter (fun e => target == e.date)).map Expense.amount).sum ∧
      ((view_expense_by_day es target).2.2 = true ↔
        ∃ e ∈ es, e.date = target) := by
  unfold view_expense_by_day
  rw [viewDay_foldl]
  refine ⟨by simp, by simp, ?_⟩
  simp only [Bool.false_or, List.any_eq_true, beq_iff_eq]
  constructor
  · rintro ⟨e, he, hd⟩; exact ⟨e, he, hd.symm⟩
  · rintro ⟨e, he, hd⟩; exact ⟨e, he, hd.symm⟩

/-- Insertion-ordered dictionary update, as Python
`d[k] = d.get(k, 0) + v` (equivalently `if k not in d: d[k] = 0` then
`d[k] += v`): an existing key keeps its place, a new key is appended. -/
def dictAdd {κ : Type} [DecidableEq κ] : List (κ × ℚ) → κ → ℚ → List (κ × ℚ)
  | [], k, v => [(k, v)]
  | (k1, v1) :: rest, k, v =>
    if k1 = k then (k1, v1 + v) :: rest else (k1, v1) :: dictAdd rest k v

/-- Dictionary lookup. -/
def dictGet {κ : Type} [DecidableEq κ] : List (κ × ℚ) → κ → Option ℚ
  | [], _ => none
  | (k1, v1) :: rest, k => if k1 = k then some v1 else dictGet rest k

theorem dictGet_dictAdd {κ : Type} [DecidableEq κ] (m : List (κ × ℚ))
    (k k0 : κ) (v : ℚ) :
    dictGet (dictAdd m k v) k0
      = if k0 = k then some ((dictGet m k).getD 0 + v)
        else dictGet m k0 := by
  induction m with
  | nil =>
    by_cases h : k0 = k
    · subst h; simp [dictAdd, dictGet]
    · rw [if_neg h]
      show (if k = k0 then some v else none) = none
      rw [if_neg (fun hh => h hh.symm)]
  | cons p rest ih =>
    obtain ⟨k1, v1⟩ := p
    by_cases hk1 : k1 = k
    · subst hk1
      rw [dictAdd, if_pos rfl]
      by_cases h0 : k0 = k1
      · subst h0; simp [dictGet]
      · rw [if_neg h0]
        show (if k1 = k0 then some (v1 + v) else dictGet rest k0)
            = dictGet ((k1, v1) :: rest) k0
        rw [if_neg (fun hh => h0 hh.symm)]
        show dictGet rest k0 = if k1 = k0 then some v1 else dictGet rest k0
        rw [if_neg (fun hh => h0 hh.symm)]
    · rw [dictAdd, if_neg hk1]
      by_cases h0 : k0 = k
      · rw [if_pos h0]
        subst h0
        show (if k1 = k0 then some v1 else dictGet (dictAdd rest k0 v) k0)
            = some ((dictGet ((k1, v1) :: rest) k0).getD 0 + v)
        rw [if_neg hk1, ih, if_pos rfl]
        show _ = some ((if k1 = k0 then some v1 else dictGet rest k0).getD 0 + v)
        rw [if_neg hk1]
      · rw [if_neg h0]
        show (if k1 = k0 then some v1 else dictGet (dictAdd rest k v) k0)
            = dictGet ((k1, v1) :: rest) k0
        by_cases h1 : k1 = k0
        · rw [if_pos h1]
          show _ = if k1 = k0 then some v1 else dictGet rest k0
          rw [if_pos h1]
        · rw [if_neg h1, ih, if_neg h0]
          show dictGet rest k0 = if k1 = k0 then some v1 else dictGet rest k0
          rw [if_neg h1]

/-- One iteration of the first `view_monthly_summary` loop (lines
162-172): a record whose date string starts with the month string adds
its amount to the running total and to its category's entry of the
insertion-ordered `by_category` dictionary, and sets the found flag. -/
def monthStep (month : String) (acc : ℚ × List (String × ℚ) × Bool)
    (e : Expense) : ℚ × List (String × ℚ) × Bool :=
  if e.date.startsWith month then
    (acc.1 + e.amount, dictAdd acc.2.1 e.category e.amount, true)
  else acc

/-- The total / by-category / found part of `view_monthly_summary`
(lines 147-183). -/
def view_monthly_summary (es : List Expense) (month : String) :
    ℚ × List (String × ℚ) × Bool :=
  es.foldl (monthStep month) (0, [], false)

/-- The day key `int(exp.date.split("-")[2])` (line 204): the numeric
value of the third dash-separated segment of the date string (`int(...)`
is modelled on digit strings, which is what every strptime-validated
date has there). -/
def dayOf (e : Expense) : ℕ :=
  digitsVal ((splitOnChar '-' e.date.data).getD 2 [])

/-- One iteration of the `daily_totals` loop (lines 200-205). -/
def dailyStep (month : String) (acc : List (ℕ × ℚ)) (e : Expense) :
    List (ℕ × ℚ) :=
  if e.date.startsWith month then dictAdd acc (dayOf e) e.amount else acc

/-- The `daily_totals` dictionary of `view_monthly_summary`
(lines 200-205). -/
def daily_totals (es : List Expense) (month : String) : List (ℕ × ℚ) :=
  es.foldl (dailyStep month) []

theorem month_fold_total (month : String) (es : List Expense)
    (tot : ℚ) (dict : List (String × ℚ)) (fnd : Bool) :
    (es.foldl (monthStep month) (tot, dict, fnd)).1
      = tot + ((es.filter (fun e => e.date.startsWith month)).map
          Expense.amount).sum := by
  induction es generalizing tot dict fnd with
  | nil => simp
  | cons a rest ih =>
    simp only [List.foldl_cons, monthStep, List.filter_cons]
    by_cases h : a.date.startsWith month = true
    · rw [if_pos h, ih]
      simp [h, add_assoc]
    · rw [if_neg h, ih]
      simp [h]

theorem month_fold_found (month : String) (es : List Expense)
    (tot : ℚ) (dict : List (String × ℚ)) (fnd : Bool) :
    (es.foldl (monthStep month) (tot, dict, fnd)).2.2
      = (fnd || es.any (fun e => e.date.startsWith month)) := by
  induction es generalizing tot dict fnd with
  | nil => simp
  | cons a rest ih =>
    simp only [List.foldl_cons, monthStep, List.any_cons]
    by_cases h : a.date.startsWith month = true
    · rw [if_pos h, ih]
      simp [h]
    · rw [if_neg h, ih]
      simp [h]

theorem month_fold_cat (month : String) (es : List Expense)
    (tot : ℚ) (dict : List (String × ℚ)) (fnd : Bool) (c : String) :
    (dictGet (es.foldl (monthStep month) (tot, dict, fnd)).2.1 c).getD 0
      = (dictGet dict c).getD 0 +
        ((es.filter (fun e => e.date.startsWith month && e.category == c)).map
          Expense.amount).sum := by
  induction es generalizing tot dict fnd with
  | nil => simp
  | cons a rest ih =>
    simp only [List.foldl_cons, monthStep, List.filter_cons]
    by_cases h : a.date.startsWith month = true
    · rw [if_pos h, ih, dictGet_dictAdd]
      by_cases hc : c = a.category
      · rw [if_pos hc]
        subst hc
        simp [h, add_assoc]
      · rw [if_neg hc]
        have hb : (a.category == c) = false := by
          exact beq_false_of_ne (fun hh => hc hh.symm)
        simp [h, hb]
    · rw [if_neg h, ih]
      simp [h]

theorem month_fold_cat_mem (month : String) (es : List Expense)
    (tot : ℚ) (dict : List (String × ℚ)) (fnd : Bool) (c : String) :
    ((dictGet (es.foldl (monthStep month) (tot, dict, fnd)).2.1 c).isSome
        = true
      ↔ ((dictGet dict c).isSome = true ∨
          ∃ e ∈ es, e.date.startsWith month = true ∧ e.category = c)) := by
  induction es generalizing tot dict fnd with
  | nil => simp
  | cons a rest ih =>
    simp only [List.foldl_cons, monthStep]
    by_cases h : a.date.startsWith month = true
    · rw [if_pos h, ih, dictGet_dictAdd]
      by_cases hc : c = a.category
      · rw [if_pos hc]
        simp only [Option.isSome_some, true_iff, true_or, iff_true]
        exact Or.inr ⟨a, List.mem_cons_self a rest, h, hc.symm⟩
      · rw [if_neg hc]
        constructor
        · rintro (hs | ⟨e, he, hm, hcat⟩)
          · exact Or.inl hs
          · exact Or.inr ⟨e, List.mem_cons_of_mem a he, hm, hcat⟩
        · rintro (hs | ⟨e, he, hm, hcat⟩)
          · exact Or.inl hs
          · rcases List.mem_cons.mp he with rfl | he2
            · exact absurd hcat.symm hc
            · exact Or.inr ⟨e, he2, hm, hcat⟩
    · rw [if_neg h, ih]
      constructor
      · rintro (hs | ⟨e, he, hm, hcat⟩)
        · exact Or.inl hs
        · exact Or.inr ⟨e, List.mem_cons_of_mem a he, hm, hcat⟩
      · rintro (hs | ⟨e, he, hm, hcat⟩)
        · exact Or.inl hs
        · rcases List.mem_cons.mp he with rfl | he2
          · exact absurd hm h
          · exact Or.inr ⟨e, he2, hm, hcat⟩

theorem daily_fold_get (month : String) (es : List Expense)
    (acc : List (ℕ × ℚ)) (d : ℕ) :
    (dictGet (es.foldl (dailyStep month) acc) d).getD 0
      = (dictGet acc d).getD 0 +
        ((es.filter (fun e => e.date.startsWith month && dayOf e == d)).map
          Expense.amount).sum := by
  induction es generalizing acc with
  | nil => simp
  | cons a rest ih =>
    simp only [List.foldl_cons, dailyStep, List.filter_cons]
    by_cases h : a.date.startsWith month = true
    · rw [if_pos h, ih, dictGet_dictAdd]
      by_cases hd : d = dayOf a
      · rw [if_pos hd]
        subst hd
        simp [h, add_assoc]
      · rw [if_neg hd]
        have hb : (dayOf a == d) = false := by
          exact beq_false_of_ne (fun hh => hd hh.symm)
        simp [h, hb]
    · rw [if_neg h, ih]
      simp [h]

/-- C8: the monthly summary includes exactly the records whose date
string has the month string as a prefix (plain string prefix match, not
a calendar range); their amounts sum to the reported month total; the
`by_category` dictionary holds, for exactly the categories of matching
records, the sum of the matching amounts of that category; and the
`daily_totals` dictionary is keyed by the numeric value of the date
string's day segment, each key holding the sum of the matching amounts
of that day. -/
theorem monthly_summary_correct (es : List Expense) (month : String) :
    (view_monthly_summary es month).1
        = ((es.filter (fun e => e.date.startsWith month)).map
            Expense.amount).sum ∧
      ((view_monthly_summary es month).2.2 = true ↔
        ∃ e ∈ es, e.date.startsWith month = true) ∧
      (∀ c : String,
        (dictGet (view_monthly_summary es month).2.1 c).getD 0
          = ((es.filter (fun e => e.date.startsWith month &&
              e.category == c)).map Expense.amount).sum) ∧
      (∀ c : String,
        ((dictGet (view_monthly_summary es month).2.1 c).isSome = true ↔
          ∃ e ∈ es, e.date.startsWith month = true ∧ e.category = c)) ∧
      (∀ d : ℕ,
        (dictGet (daily_totals es month) d).getD 0
          = ((es.filter (fun e => e.date.startsWith month &&
              dayOf e == d)).map Expense.amount).sum) := by
  refine ⟨?_, ?_, ?_, ?_, ?_⟩
  · rw [view_monthly_summary, month_fold_total]
    simp
  · rw [view_monthly_summary, month_fold_found]
    simp [List.any_eq_true]
  · intro c
    rw [view_monthly_summary, month_fold_cat]
    simp [dictGet]
  · intro c
    rw [view_monthly_summary]
    rw [month_fold_cat_mem]
    simp [dictGet]
  · intro d
    rw [daily_totals, daily_fold_get]
    simp [dictGet]
